import Mathlib

/-!
Verification of the core of the `repoman` repository: the incremental
indexing pipeline (`src/repoman/index.py`), the store operations
(`src/repoman/db_operations.py`) and the query projection layer
(`src/repoman/cli_commands/query.py`).

Python strings are embedded as `List Char` (`Str` below); Python string
primitives (`split`, `strip`, `lower`, `startswith`, lexicographic `<`)
are re-implemented character by character so that every definition is
executable and kernel-reducible.  Database tables are embedded as lists
of rows, mirroring the peewee models of `src/repoman/db_logical.py`.
-/

/-- Python strings, embedded as lists of characters. -/
abbrev Str := List Char

/-- Coerce a Lean string literal to the `Str` embedding. -/
def str (s : String) : Str := s.toList

/-- The newline character (Python `"\n"`). -/
def nlChar : Char := Char.ofNat 10

/-- The tab character (Python `"\t"`). -/
def tabChar : Char := Char.ofNat 9

/-- The single-quote character (Python `"'"`). -/
def squote : Char := Char.ofNat 39

/-- The double-quote character (Python `'"'`). -/
def dquote : Char := Char.ofNat 34

/-- ASCII whitespace, as stripped by Python `str.strip()` (restricted to
the ASCII range: space, tab, newline, carriage return, vertical tab,
form feed). -/
def isSpaceChar (c : Char) : Bool :=
  c.toNat = 32 || c.toNat = 9 || c.toNat = 10 || c.toNat = 13 || c.toNat = 11 || c.toNat = 12

/-- Python `str.strip()`: drop leading and trailing whitespace. -/
def pyStrip (s : Str) : Str :=
  ((s.dropWhile isSpaceChar).reverse.dropWhile isSpaceChar).reverse

/-- Python `str.lower()` (ASCII letters; this program only compares
ASCII suffixes and org keywords). -/
def pyLower (s : Str) : Str := s.map Char.toLower

/-- Python `str.startswith(pre)`. -/
def pyStartsWith (pre s : Str) : Bool := s.take pre.length == pre

/-- Python `s.split(c)` for a one-character separator: split at every
occurrence, keeping empty pieces (e.g. `"a  b".split(" ") = ["a","","b"]`). -/
def pySplitChar (c : Char) (s : Str) : List Str :=
  match s with
  | [] => [[]]
  | x :: rest =>
    match pySplitChar c rest with
    | [] => if x = c then [[], []] else [[x]]
    | piece :: pieces => if x = c then [] :: piece :: pieces else (x :: piece) :: pieces

/-- Python `sep.join(pieces)` (used as `' '.join(text_in_file)`). -/
def pyJoin (sep : Str) : List Str → Str
  | [] => []
  | [x] => x
  | x :: xs => x ++ sep ++ pyJoin sep xs

/-- Python lexicographic `<` on strings (code-point order). -/
def strLt : Str → Str → Bool
  | [], [] => false
  | [], _ :: _ => true
  | _ :: _, [] => false
  | a :: as, b :: bs =>
    if a.toNat < b.toNat then true
    else if a.toNat = b.toNat then strLt as bs
    else false

/-!
Data model: one structure per peewee model of `db_logical.py`
(`Document`, `DocumentTag`, `DocumentLink`, `DocumentFTS`), and `DB` as
the state of the whole SQLite database.
-/

/-- A row of the `document` table (`db_logical.Document`). -/
structure Document where
  id : Nat
  path : Str
  suffix : Str
  last_mod : Str
  last_idx : Str
deriving DecidableEq

/-- A row of the `document_tag` table (`db_logical.DocumentTag`). -/
structure DocumentTagRow where
  doc_id : Nat
  tag : Str
deriving DecidableEq

/-- A row of the `document_link` table (`db_logical.DocumentLink`). -/
structure DocumentLinkRow where
  doc_id : Nat
  url : Str
  desc : Option Str
deriving DecidableEq

/-- A row of the `document_fts` full-text table (`db_logical.DocumentFTS`). -/
structure DocumentFTSRow where
  rowid : Nat
  path : Str
  body : Str
deriving DecidableEq

/-- The database state: the four tables. -/
structure DB where
  documents : List Document
  tags : List DocumentTagRow
  links : List DocumentLinkRow
  fts : List DocumentFTSRow
deriving DecidableEq

/-- The in-memory document produced by `index._index` and consumed by
`db_operations.upsert_doc` (the `AnonymousObj` named `so_doc`/`a_doc`).
`body` is `none` when text extraction returned Python `None` (failed
PDF extraction). -/
structure ADoc where
  path_ : Str
  suffix : Str
  body : Option Str
  links : List (Str × Option Str)
  lmod : Str
  tags : List Str
  now : Str
deriving DecidableEq

/-!
Embedding of `db_operations.upsert_doc` and `db_operations.check_delete_existing`.
-/

/-- One iteration of the deletion loop in `check_delete_existing`: for a
`doc` found under the path, delete its tag rows (`DocumentTag.doc_id ==
doc.id`), its link rows, the full-text rows with `DocumentFTS.path ==
doc.path`, and the document row itself (`doc.delete_instance()`, a
delete by primary key). -/
def deleteOneDoc (db : DB) (doc : Document) : DB :=
  { documents := db.documents.filter (fun d => d.id ≠ doc.id)
    tags := db.tags.filter (fun t => t.doc_id ≠ doc.id)
    links := db.links.filter (fun l => l.doc_id ≠ doc.id)
    fts := db.fts.filter (fun f => f.path ≠ doc.path) }

/-- Model of `db_operations.check_delete_existing(path_)`: select the document
rows whose `path` equals the given path; if there are none, do nothing
and return `False`; otherwise delete each one together with its tag,
link and full-text rows, and return `True`. -/
def check_delete_existing (db : DB) (path : Str) : DB × Bool :=
  let docs := db.documents.filter (fun d => d.path = path)
  if docs.isEmpty then (db, false)
  else (docs.foldl deleteOneDoc db, true)

/-- The body cleansing inside `upsert_doc`:
`a_doc.body.replace("'", '"').replace("\n", "") if a_doc.body else ""`. -/
def cleanseBody (b : Str) : Str :=
  (b.map (fun c => if c = squote then dquote else c)).filter (fun c => c ≠ nlChar)

/-- The cleansed text actually inserted into the full-text table: Python
`None` and the empty string are both falsy, so both yield `""`. -/
def cleansedOf (body : Option Str) : Str :=
  match body with
  | none => []
  | some b => if b.isEmpty then [] else cleanseBody b

/-- Model of `db_operations.upsert_doc(a_doc)`: clear any existing row for the
path, insert the fresh `Document` row (peewee assigns the new primary
key, modelled by `freshId`), insert the cleansed body into the
full-text table, then insert one row per tag and one per link. Returns
the new document id. -/
def upsert_doc (freshId : Nat) (db : DB) (a_doc : ADoc) : DB × Nat :=
  let db0 := (check_delete_existing db a_doc.path_).1
  let doc : Document :=
    { id := freshId, path := a_doc.path_, suffix := a_doc.suffix
      last_mod := a_doc.lmod, last_idx := a_doc.now }
  let db1 := { db0 with documents := db0.documents ++ [doc] }
  let db2 := { db1 with fts := db1.fts ++ [DocumentFTSRow.mk freshId a_doc.path_ (cleansedOf a_doc.body)] }
  let db3 := { db2 with tags := db2.tags ++ a_doc.tags.map (fun t => DocumentTagRow.mk freshId t) }
  let db4 := { db3 with links := db3.links ++ a_doc.links.map (fun l => DocumentLinkRow.mk freshId l.1 l.2) }
  (db4, freshId)

/-!
Embedding of `index._paths_to_index` and `db_operations.get_paths_already_indexed`.

In the Python, the dictionary returned by `get_paths_already_indexed`
is keyed by `doc.path`, a `str`, while `_paths_to_index` probes it with
`pathlib.Path` values; a `Path` never compares equal to a `str`, so the
two key kinds are embedded as distinct constructors of `PyKey`.
-/

/-- A Python dictionary key that is either a `str` or a `pathlib.Path`
wrapping the same text; `Path(s) == s` is `False` in Python, and the
derived equality of this type likewise distinguishes the constructors. -/
inductive PyKey where
  | pstr (s : Str)
  | ppath (s : Str)
deriving DecidableEq

/-- A Python runtime error raised by the modelled code. -/
inductive PyError where
  | typeError
  | nameError
deriving DecidableEq

/-- Model of `db_operations.get_paths_already_indexed()`: builds
`{doc.path : doc for doc in Document.select()}` — the keys are the
path *strings* and (despite the docstring saying "last-mod time") the
values are the whole `Document` rows. -/
def get_paths_already_indexed (docs : List Document) : List (PyKey × Document) :=
  docs.map (fun d => (PyKey.pstr d.path, d))

/-- The loop body of `index._paths_to_index` over the walked candidate
paths (each candidate is a `pathlib.Path`, embedded as `PyKey.ppath`
when probing the dictionary).  With `force` the candidate is always
taken.  Otherwise, if the `ppath` key is absent the candidate is taken;
if it were present, the code would evaluate
`get_last_mod(path_) > lmod_doc` with `lmod_doc` a `Document` object,
which raises `TypeError` ('>' unsupported between `str` and `Document`).
`lastMod` models `get_last_mod` on the candidate. -/
def pathsToIndexGo (already : List (PyKey × Document)) (lastMod : Str → Str)
    (force : Bool) : List Str → Except PyError (List Str)
  | [] => Except.ok []
  | p :: rest =>
    if force then
      match pathsToIndexGo already lastMod force rest with
      | Except.ok r => Except.ok (p :: r)
      | Except.error e => Except.error e
    else
      match already.lookup (PyKey.ppath p) with
      | none =>
        match pathsToIndexGo already lastMod force rest with
        | Except.ok r => Except.ok (p :: r)
        | Except.error e => Except.error e
      | some _lmod_doc =>
        let _ := lastMod p
        Except.error PyError.typeError

/-- Model of `index._paths_to_index(path_dir, arg_suffix, arg_force)`, given the
walked candidates (the output of `walker`, a filesystem effect) and the
current document table. -/
def paths_to_index (docs : List Document) (walked : List Str)
    (lastMod : Str → Str) (force : Bool) : Except PyError (List Str) :=
  pathsToIndexGo (get_paths_already_indexed docs) lastMod force walked

/-- Modelled from the spec: `selectForIndexing(alreadyIndexed,
candidates, force)` of §4.2 ChangeDetector — with `force` return all
candidates, otherwise return the candidates not present in
`alreadyIndexed` (a path → last-modified-string map) union those whose
current last-modified value is lexicographically greater than the
stored one. -/
def selectForIndexing (alreadyIndexed : List (Str × Str)) (candidates : List Str)
    (lastMod : Str → Str) (force : Bool) : List Str :=
  if force then candidates
  else candidates.filter (fun p =>
    match alreadyIndexed.lookup p with
    | none => true
    | some stored => strLt stored (lastMod p))

/-!
Embedding of `index.get_last_mod` and the filename date pattern
`YYYY_MM_DD_PATTERN = r'^(\d{4,4})-([01]\d)-([0123]\d)[- _T]'`.
-/

/-- Numeric value of an ASCII digit character. -/
def digitVal (c : Char) : Nat := c.toNat - 48

/-- Zero-pad a number to two digits (`f"{n:02d}"`, and the `%H`/`%M`
etc. directives of `strftime`). -/
def pad2 (n : Nat) : Str := (if n < 10 then str "0" else []) ++ (toString n).toList

/-- Zero-pad a number to four digits (`strftime` `%Y`). -/
def pad4 (n : Nat) : Str :=
  (if n < 10 then str "000" else if n < 100 then str "00" else if n < 1000 then str "0" else []) ++
    (toString n).toList

/-- A filesystem modification time, already broken into calendar
fields (the embedding of `datetime.fromtimestamp(st_mtime)`). -/
structure Timestamp where
  year : Nat
  month : Nat
  day : Nat
  hour : Nat
  minute : Nat
deriving DecidableEq

/-- Model of `strftime(c.DB_DATETIME_FORMAT)` with format `'%Y-%m-%d %H:%M'`. -/
def formatDatetime (t : Timestamp) : Str :=
  pad4 t.year ++ str "-" ++ pad2 t.month ++ str "-" ++ pad2 t.day ++ str " " ++
    pad2 t.hour ++ str ":" ++ pad2 t.minute

/-- Model of `re.match(YYYY_MM_DD_PATTERN, name)` for the anchored pattern
`^(\d{4,4})-([01]\d)-([0123]\d)[- _T]`: four digits, `-`, `0` or `1`
then a digit, `-`, one of `0123` then a digit, then one of `-`, space,
`_`, `T` (the trailing separator is required by the character class).
Returns the three captured groups.  (`\d` is modelled as an ASCII
digit.) -/
def yyyy_mm_dd_match (name : Str) : Option (Str × Str × Str) :=
  match name with
  | y1 :: y2 :: y3 :: y4 :: h1 :: m1 :: m2 :: h2 :: d1 :: d2 :: sep :: _ =>
    if y1.isDigit ∧ y2.isDigit ∧ y3.isDigit ∧ y4.isDigit ∧ h1 = '-' ∧
        (m1 = '0' ∨ m1 = '1') ∧ m2.isDigit ∧ h2 = '-' ∧
        (d1 = '0' ∨ d1 = '1' ∨ d1 = '2' ∨ d1 = '3') ∧ d2.isDigit ∧
        (sep = '-' ∨ sep = ' ' ∨ sep = '_' ∨ sep = 'T') then
      some ([y1, y2, y3, y4], [m1, m2], [d1, d2])
    else none
  | _ => none

/-- Model of `index.get_last_mod(path_)` on the file name and the filesystem
mtime: if the name matches `YYYY_MM_DD_PATTERN`, return
`f"{yyyy}-{int(mm):02d}-{int(dd):02d} 00:00"`; otherwise format the
filesystem mtime with `DB_DATETIME_FORMAT`. -/
def get_last_mod (name : Str) (mtime : Timestamp) : Str :=
  match yyyy_mm_dd_match name with
  | some (yyyy, mm, dd) =>
    yyyy ++ str "-" ++ pad2 (10 * digitVal (mm.headD '0') + digitVal ((mm.drop 1).headD '0')) ++
      str "-" ++ pad2 (10 * digitVal (dd.headD '0') + digitVal ((dd.drop 1).headD '0')) ++ str " 00:00"
  | none => formatDatetime mtime

/-- Modelled from the spec and claim wording for date derivation: a
leading `YYYY-MM-DD` pattern *optionally* followed by `T`, space, `_`
or `-` — i.e. the ten date characters alone already match, whatever
follows (or nothing). -/
def claimedDateMatch (name : Str) : Option (Str × Str × Str) :=
  match name with
  | y1 :: y2 :: y3 :: y4 :: h1 :: m1 :: m2 :: h2 :: d1 :: d2 :: _ =>
    if y1.isDigit ∧ y2.isDigit ∧ y3.isDigit ∧ y4.isDigit ∧ h1 = '-' ∧
        (m1 = '0' ∨ m1 = '1') ∧ m2.isDigit ∧ h2 = '-' ∧
        (d1 = '0' ∨ d1 = '1' ∨ d1 = '2' ∨ d1 = '3') ∧ d2.isDigit then
      some ([y1, y2, y3, y4], [m1, m2], [d1, d2])
    else none
  | _ => none

/-- Modelled from the claim: `get_last_mod` with the optional-separator
reading of the date pattern. -/
def claimed_get_last_mod (name : Str) (mtime : Timestamp) : Str :=
  match claimedDateMatch name with
  | some (yyyy, mm, dd) =>
    yyyy ++ str "-" ++ pad2 (10 * digitVal (mm.headD '0') + digitVal ((mm.drop 1).headD '0')) ++
      str "-" ++ pad2 (10 * digitVal (dd.headD '0') + digitVal ((dd.drop 1).headD '0')) ++ str " 00:00"
  | none => formatDatetime mtime

/-- The amended date condition: the filename starts with `YYYY-MM-DD`
*followed by one of* `-`, space, `_`, `T` (the separator is required,
exactly as in `YYYY_MM_DD_PATTERN`). -/
def hasLeadingDate (name : Str) : Bool :=
  match name with
  | y1 :: y2 :: y3 :: y4 :: h1 :: m1 :: m2 :: h2 :: d1 :: d2 :: sep :: _ =>
    y1.isDigit && y2.isDigit && y3.isDigit && y4.isDigit && h1 == '-' &&
      (m1 == '0' || m1 == '1') && m2.isDigit && h2 == '-' &&
      (d1 == '0' || d1 == '1' || d1 == '2' || d1 == '3') && d2.isDigit &&
      (sep == '-' || sep == ' ' || sep == '_' || sep == 'T')
  | _ => false

/-!
Embedding of `index.get_tags` and the Novoid tag pattern
`FILE_WITH_TAGS_REGEX = r'(.+?) -- (.+?)(\.(\w+))??$'`, applied with
`re.match` to `path_.stem`.

The regex is embedded by its backtracking semantics: the first lazy
group grows from the left until a position where the literal `" -- "`
follows and the rest of the pattern matches; the second lazy group
grows until the lazily-optional extension group `(\.(\w+))??` plus the
end anchor `$` match the remainder.  `.` does not match a newline; `$`
matches at the end of the string or just before a final newline; `\w`
is modelled as ASCII `[A-Za-z0-9_]`.
-/

/-- The literal separator `FILENAME_TAG_SEPARATOR = " -- "`. -/
def sepChars : Str := [' ', '-', '-', ' ']

/-- Python `$`: end of string, or just before a trailing newline. -/
def pyAtEnd (t : Str) : Bool := t == [] || t == [nlChar]

/-- A `\w` word character (ASCII model). -/
def isWordChar (c : Char) : Bool := c.isAlphanum || c == '_'

/-- Does `(\.(\w+))??$` accept the remainder `t`?  The lazy option
first tries the empty match (so `$` directly), then a literal `.`
followed by a greedy nonempty run of word characters and `$`. -/
def matchExtEnd (t : Str) : Bool :=
  pyAtEnd t ||
    (match t with
     | c :: u =>
       if c = '.' then
         (u.takeWhile isWordChar ≠ []) && pyAtEnd (u.dropWhile isWordChar)
       else false
     | [] => false)

/-- The second lazy group `(.+?)`: grow the group one character at a
time (never across a newline) until `(\.(\w+))??$` accepts the rest;
`acc` is the group matched so far. -/
def matchRestGo (acc : Str) : Str → Option Str
  | [] => none
  | c :: rest =>
    if c = nlChar then none
    else if matchExtEnd rest then some (acc ++ [c])
    else matchRestGo (acc ++ [c]) rest

/-- The first lazy group `(.+?)`: grow the group one character at a
time (never across a newline); at each length, if the literal `" -- "`
follows, try to match the rest of the pattern there, and on failure
keep growing.  Returns `(group 1, group 2)`. -/
def findSepGo (acc : Str) : Str → Option (Str × Str)
  | [] => none
  | c :: rest =>
    if c = nlChar then none
    else
      if rest.take 4 = sepChars then
        match matchRestGo [] (rest.drop 4) with
        | some g2 => some (acc ++ [c], g2)
        | none => findSepGo (acc ++ [c]) rest
      else findSepGo (acc ++ [c]) rest

/-- Model of `index.get_tags(path_)` on the filename stem: if the stem matches
`FILE_WITH_TAGS_REGEX`, return `group(2).split(' ')` with the empty
(falsy) pieces discarded; otherwise return the empty list. -/
def get_tags (stem : Str) : List Str :=
  match findSepGo [] stem with
  | some (_, g2) => (pySplitChar ' ' g2).filter (fun t => !t.isEmpty)
  | none => []

/-- Split at every character satisfying `p`, keeping empty pieces
(the generalisation of `pySplitChar` used to read the claim's
"whitespace-split"). -/
def pySplitP (p : Char → Bool) (s : Str) : List Str :=
  match s with
  | [] => [[]]
  | x :: rest =>
    match pySplitP p rest with
    | [] => if p x then [[], []] else [[x]]
    | piece :: pieces => if p x then [] :: piece :: pieces else (x :: piece) :: pieces

/-- Modelled from the spec and claim wording for tag derivation: the
*whitespace-split* tokens of the tag group, empty tokens discarded
(split at every whitespace character, not only at spaces). -/
def claimed_get_tags (stem : Str) : List Str :=
  match findSepGo [] stem with
  | some (_, g2) => (pySplitP isSpaceChar g2).filter (fun t => !t.isEmpty)
  | none => []

/-!
Embedding of `index.get_org_links` and `index.get_text_from_org`.
-/

/-- Python `line.split(pat, 1)` for a two-character pattern `[a, b]`:
split at the *first* occurrence, returning the pieces before and after
it, or `none` when the pattern does not occur (in which case the
two-target unpacking in the Python raises `ValueError`). -/
def splitOnFirst2 (a b : Char) : Str → Option (Str × Str)
  | [] => none
  | [_] => none
  | c :: d :: rest =>
    if c = a ∧ d = b then some ([], rest)
    else
      match splitOnFirst2 a b (d :: rest) with
      | some (pre, post) => some (c :: pre, post)
      | none => none

/-- Python `s.split(pat)` (no maxsplit) for a two-character pattern:
split at every occurrence, left to right.  The fuel is bounded by the
string length, which each removal of an occurrence strictly decreases. -/
def splitAll2Go (fuel : Nat) (a b : Char) (l : Str) : List Str :=
  match fuel with
  | 0 => [l]
  | fuel + 1 =>
    match splitOnFirst2 a b l with
    | none => [l]
    | some (pre, post) => pre :: splitAll2Go fuel a b post

/-- Python `s.split(pat)` for a two-character pattern. -/
def splitAll2 (a b : Char) (l : Str) : List Str := splitAll2Go l.length a b l

/-- An extracted org link: the `(url, desc)` tuple appended by
`get_org_links` (`desc` is Python `None` for a `[[url]]` form). -/
abbrev OrgLink := Str × Option Str

/-- The branch on `'][' in url_desc` of `get_org_links`: a `url_desc`
without `][` is a bare url; split on every `][`, exactly two pieces
give `(url, desc)`; three or more raise `ValueError` (`none`). -/
def parseUrlDesc (url_desc : Str) : Option OrgLink :=
  match splitAll2 ']' '[' url_desc with
  | [u] => some (u, none)
  | [u, d] => some (u, some d)
  | _ => none

/-- The `while '[[' in line` loop of `index.get_org_links`:
`_, rest = line.split('[[', 1)`; `url_desc, rest = rest.split(']]', 1)`
(a missing `]]` raises `ValueError`, caught to `return None`); a
`url_desc` containing `][` is split on every `][` and must give exactly
a url and a description (three or more pieces raise `ValueError`,
caught to `return None`); the pair is appended, and the loop continues
on the piece of the *original* `line` after its first `]]` (the final
`line.split(']]', 1)` in the source, whose `ValueError` is suppressed).
The fuel only pays for the strictly shrinking `line`; with fuel
`line.length + 1` it never runs out. -/
def orgLinksGo (fuel : Nat) (line : Str) (acc : List OrgLink) : Option (List OrgLink) :=
  match fuel with
  | 0 => none
  | fuel + 1 =>
    match splitOnFirst2 '[' '[' line with
    | none => some acc
    | some (_, rest) =>
      match splitOnFirst2 ']' ']' rest with
      | none => none
      | some (url_desc, _) =>
        match parseUrlDesc url_desc with
        | none => none
        | some lk =>
          let line1 :=
            match splitOnFirst2 ']' ']' line with
            | none => line
            | some (_, after) => after
          orgLinksGo fuel line1 (acc ++ [lk])

/-- Model of `index.get_org_links(path_, line)`. -/
def get_org_links (line : Str) : Option (List OrgLink) :=
  orgLinksGo (line.length + 1) line []

/-- The `filter_source_blocks` mini state machine of
`get_text_from_org`: drop every line from a case-insensitive
`#+begin_src` marker up to and including the next `#+end_src` marker. -/
def filterSBStep (st : Bool × List Str) (line : Str) : Bool × List Str :=
  let lsl := pyLower (pyStrip line)
  if pyStartsWith (str "#+begin_src") lsl then (true, st.2)
  else if pyStartsWith (str "#+end_src") lsl then (false, st.2)
  else if st.1 then st
  else (st.1, st.2 ++ [line])

/-- The source-block filter itself: fold the state machine over the
lines, starting outside a block. -/
def filterSourceBlocks (ls : List Str) : List Str :=
  (ls.foldl filterSBStep (false, [])).2

/-- Model of `index.get_text_from_org(path_)` on the decoded lines of the file:
keep the stripped non-blank lines outside source blocks, space-join
them into the body, and collect `get_org_links` of each such line when
it is truthy (a nonempty list; both `None` — malformed markup — and
`[]` are falsy and contribute nothing). -/
def textOrgStep (st : List Str × List OrgLink) (line : Str) : List Str × List OrgLink :=
  let clean := pyStrip line
  if clean.isEmpty then st
  else
    (st.1 ++ [clean],
     match get_org_links clean with
     | some (l :: rest) => st.2 ++ (l :: rest)
     | _ => st.2)

/-- The extraction itself: fold the per-line step over the
block-filtered lines, then space-join the body pieces. -/
def get_text_from_org (ls : List Str) : Str × List OrgLink :=
  let folded := (filterSourceBlocks ls).foldl textOrgStep ([], [])
  (pyJoin (str " ") folded.1, folded.2)

/-- A well-formed rendering of a line containing org links: filler
text, then `[[url]]` or `[[url][desc]]` for each link in order, then a
trailing filler. -/
def renderLink (lk : OrgLink) : Str :=
  ['[', '['] ++ lk.1 ++ (match lk.2 with | none => [] | some d => [']', '['] ++ d) ++ [']', ']']

/-- Interleave fillers and rendered links, ending with `tail`. -/
def renderLine : List (Str × OrgLink) → Str → Str
  | [], tail => tail
  | (t, lk) :: rest, tail => t ++ renderLink lk ++ renderLine rest tail

/-- Free of square brackets: the well-formedness condition on fillers,
urls and descriptions of a rendered line. -/
def noBrackets (s : Str) : Bool := s.all (fun c => c ≠ '[' ∧ c ≠ ']')

/-!
Embedding of `db_operations.query` (query fusion) and the projection layer of
`cli_commands/query.py`.

The FTS5 engine is an external collaborator (spec §1): a search is
embedded as the list of hits it returns, each hit carrying the matched
rowid, the `bm25` relevance score already formatted as by
`f"{fts.bm25:.2f}"`, and the highlighted snippet.
-/

/-- One hit of `DocumentFTS.search_bm25`, as consumed by
`get_docs_from_fts`. -/
structure FTSHit where
  rowid : Nat
  rank : Str
  snippet : Str
deriving DecidableEq

/-- The transient query result (`adts.QueryResult`). -/
structure QueryResult where
  doc_id : Option Nat
  rank : Str
  name : Str
  path_full : Str
  path_rel : Str
  suffix : Str
  last_mod : Str
  snippet : Str
deriving DecidableEq

/-- Model of `pathlib.Path(p).name`: the final path component. -/
def pathName (p : Str) : Str := (pySplitChar '/' p).getLastD []

/-- Model of `doc_path.relative_to(*doc_path.parts[:3])` for an absolute path
with at least three parts (the `FIXME! Won't always be 3!!` line):
drop the root and the first two components. -/
def pathRel (p : Str) : Str := pyJoin (str "/") ((pySplitChar '/' p).drop 3)

/-- Model of `query.get_docs_from_fts`: keep the hits whose rowid resolves in
the `document` table (`if not doc: continue`), and laminate hit and
document into a `QueryResult` carrying the document id, the formatted
rank and the snippet.  Also returns the raw hit rowids (`doc_ids`). -/
def get_docs_from_fts (docs : List Document) (hits : List FTSHit) :
    List QueryResult × List Nat :=
  let doc_ids := hits.map (fun h => h.rowid)
  let found := docs.filter (fun d => doc_ids.contains d.id)
  let results := hits.filterMap (fun h =>
    match found.find? (fun d => d.id == h.rowid) with
    | none => none
    | some doc =>
      some { doc_id := some doc.id, rank := h.rank, name := pathName doc.path
             path_full := doc.path, path_rel := pathRel doc.path
             suffix := doc.suffix, last_mod := doc.last_mod, snippet := h.snippet })
  (results, doc_ids)

/-- Model of `query.get_docs_from_tags`: exact tag match, dropping every
document id already returned by the full-text search; each remaining
document becomes a `QueryResult` with `doc_id = None`, the fixed
low-sentinel rank string `" 0.00"` and the synthetic snippet
`f"Tag: >>>{query_string}<<<"`. -/
def get_docs_from_tags (db : DB) (doc_ids : List Nat) (query_string : Str) :
    List QueryResult :=
  let tagRows := db.tags.filter (fun t => t.tag = query_string)
  if tagRows.isEmpty then []
  else
    let tag_doc_ids := (tagRows.map (fun t => t.doc_id)).filter (fun i => !doc_ids.contains i)
    let docs := db.documents.filter (fun d => tag_doc_ids.contains d.id)
    docs.map (fun doc =>
      { doc_id := none, rank := str " 0.00", name := pathName doc.path
        path_full := doc.path, path_rel := pathRel doc.path
        suffix := doc.suffix, last_mod := doc.last_mod
        snippet := str "Tag: >>>" ++ query_string ++ str "<<<" })

/-- Model of `db_operations.query(query_parms)`: fuse both result sets,
tag-only entries first (`docs_from_tags + docs_from_fts`). -/
def query (db : DB) (hits : List FTSHit) (query_string : Str) : List QueryResult :=
  let fts := get_docs_from_fts db.documents hits
  get_docs_from_tags db fts.2 query_string ++ fts.1

/-- Model of `adts.QueryCommandParameters`. -/
structure QueryCommandParameters where
  query_string : Str
  top_n : Option Nat
  suffix : Str
  sort_order : Str
deriving DecidableEq

/-- The sortable attributes (`adts.SortOrderChoices`). -/
inductive SortAttr where
  | lastmod
  | name
  | path
  | rank
  | suffix
deriving DecidableEq

/-- Model of `SortOrderChoices[key]`: the enum lookup by display name (`none`
models the `KeyError` on an unknown key). -/
def sortAttrOf (key : Str) : Option SortAttr :=
  if key = str "lastmod" then some SortAttr.lastmod
  else if key = str "name" then some SortAttr.name
  else if key = str "path" then some SortAttr.path
  else if key = str "rank" then some SortAttr.rank
  else if key = str "suffix" then some SortAttr.suffix
  else none

/-- Model of `getattr(ao_, order_by_attribute)`: the sort key of a result. -/
def sortKeyOf (attr : SortAttr) (r : QueryResult) : Str :=
  match attr with
  | SortAttr.lastmod => r.last_mod
  | SortAttr.name => r.name
  | SortAttr.path => r.path_full
  | SortAttr.rank => r.rank
  | SortAttr.suffix => r.suffix

/-- Stable insertion of an element into a sorted list: the element goes
before the first `y` with `le x y` (so equal keys keep their original
relative order, as Python's stable `list.sort` guarantees). -/
def insertSorted (le : QueryResult → QueryResult → Bool) (x : QueryResult) :
    List QueryResult → List QueryResult
  | [] => [x]
  | y :: ys => if le x y then x :: y :: ys else y :: insertSorted le x ys

/-- Stable sort (insertion sort).  Python `list.sort` is stable, and a
stable sort under a total preorder is unique, so any stable sort is a
faithful embedding of it. -/
def stableSort (le : QueryResult → QueryResult → Bool) : List QueryResult → List QueryResult
  | [] => []
  | x :: xs => insertSorted le x (stableSort le xs)

/-- The `sort_results` closure of `_sort_filter_results`: reverse when
the sort order starts with `-`, look the attribute up by the order
string with every `-` removed (an unknown key raises `KeyError`,
modelled as `none`), and stably sort by that attribute — descending
with ties in original order when reversed. -/
def sort_results (sort_order : Str) (results : List QueryResult) :
    Option (List QueryResult) :=
  let rev := pyStartsWith (str "-") sort_order
  match sortAttrOf (sort_order.filter (fun c => c ≠ '-')) with
  | none => none
  | some attr =>
    some (if rev then
            stableSort (fun x y => !strLt (sortKeyOf attr x) (sortKeyOf attr y)) results
          else
            stableSort (fun x y => !strLt (sortKeyOf attr y) (sortKeyOf attr x)) results)

/-- The `filter_results_by_suffix` closure of `_sort_filter_results`:
when a suffix is given (non-empty, truthy), keep only the results whose
suffix matches case-insensitively. -/
def filter_results_by_suffix (suffix : Str) (results : List QueryResult) :
    List QueryResult :=
  if !suffix.isEmpty then
    results.filter (fun r => pyLower r.suffix = pyLower suffix)
  else results

/-- Model of `cli_commands.query._sort_filter_results(query_parms, results)`:
filter by suffix, then sort.  (No use is made of `top_n`.) -/
def sort_filter_results (parms : QueryCommandParameters) (results : List QueryResult) :
    Option (List QueryResult) :=
  sort_results parms.sort_order (filter_results_by_suffix parms.suffix results)

/-- Model of `cli_commands.query.open_file(console, doc_id)`: select the
documents with `Document.id == doc_id`; when none resolve, return
`None`.  Otherwise the file's details are printed and, if the user
answers yes to the open prompt, the code evaluates the undefined name
`path_full` (a `NameError`); answering no returns `None`. -/
def open_file (db : DB) (doc_id : Option Nat) (user_opens : Bool) :
    Except PyError (Option Str) :=
  let docs := db.documents.filter (fun d => doc_id = some d.id)
  if docs.isEmpty then Except.ok none
  else if user_opens then Except.error PyError.nameError
  else Except.ok none

/-!
Concrete inputs used by the closed counterexamples and witnesses.
-/

/-- Ten query results (doc ids `0..9`, distinct last-modified keys):
the Top-N scenario of spec §8 with more matches than `topN`. -/
def c4results : List QueryResult :=
  (List.range 10).map (fun i =>
    QueryResult.mk (some i) (str " 1.00") (str "n" ++ (toString i).toList)
      (str "/a/b/c/n" ++ (toString i).toList) (str "c/n" ++ (toString i).toList)
      (str "txt") (str "2022-01-0" ++ (toString i).toList ++ str " 00:00") (str ">>>x<<<"))

/-- A stem `report -- a<TAB>b` whose tag group contains a tab. -/
def c7stem : Str := str "report " ++ ['-', '-'] ++ str " a" ++ [tabChar] ++ str "b"

/-- A document row used by concrete query-fusion scenarios. -/
def wDoc : Document :=
  Document.mk 1 (str "/a/b/c/n.txt") (str "txt") (str "2022-01-01 00:00") (str "2022-01-02 00:00")

/-- A database holding `wDoc`, tagged `draft`. -/
def wDB : DB := DB.mk [wDoc] [DocumentTagRow.mk 1 (str "draft")] [] []

/-- A full-text hit resolving to `wDoc`. -/
def wHit : FTSHit := FTSHit.mk 1 (str "-1.50") (str ">>>n<<<")

/-- A database with a previously indexed org document (id 1) carrying a
tag, a link and a full-text row, used by the upsert scenarios. -/
def c2db : DB :=
  DB.mk [Document.mk 1 (str "/r/a.org") (str "org") (str "2022-01-01 00:00") (str "2022-01-01 00:00")]
    [DocumentTagRow.mk 1 (str "old")]
    [DocumentLinkRow.mk 1 (str "https://old.org") none]
    [DocumentFTSRow.mk 1 (str "/r/a.org") (str "old text")]

/-- A freshly extracted state for the same path: new tags, a new link,
and a body containing an apostrophe and a newline. -/
def c2adoc : ADoc :=
  ADoc.mk (str "/r/a.org") (str "org")
    (some (str "it" ++ [squote] ++ str "s" ++ [nlChar] ++ str "ok"))
    [(str "https://x.com", some (str "X"))]
    (str "2022-02-02 00:00") [str "new1", str "new2"] (str "2022-02-03 00:00")

/-- Two links with bracket-free fillers, urls and description, for the
rendered-line scenario. -/
def c8items : List (Str × OrgLink) :=
  [(str "see ", (str "https://x.com", none)),
   (str " and ", (str "https://y.org", some (str "A Desc")))]

/-!
Helper lemmas, shared by the claim theorems below.
-/

theorem squote_not_mem_cleanseBody (b : Str) : squote ∉ cleanseBody b := by
  intro h
  have h2 := (List.mem_filter.mp h).1
  obtain ⟨c, hc, hmap⟩ := List.mem_map.mp h2
  by_cases hcs : c = squote
  · rw [if_pos hcs] at hmap
    exact absurd hmap (by decide)
  · rw [if_neg hcs] at hmap
    exact hcs hmap

theorem nl_not_mem_cleanseBody (b : Str) : nlChar ∉ cleanseBody b := by
  intro h
  have h2 := (List.mem_filter.mp h).2
  simp at h2

/-!
Claim C1: change detection.
-/

/-- C1: the claim states that `_paths_to_index` with `force=false`
selects exactly the walked candidates that are new or whose fresh
last-modified string exceeds the stored one, so an unchanged fully
indexed tree yields the empty selection.  The code disagrees: the
already-indexed dictionary is keyed by `str` but probed with `Path`
objects, so the membership test never succeeds and every candidate is
re-selected.  Concretely, with one unchanged indexed file the code
selects that file while the specified `selectForIndexing` selects
nothing. -/
theorem c1_change_detection_code_bug :
    paths_to_index
        [Document.mk 1 (str "/repo/a.txt") (str "txt") (str "2022-01-01 00:00") (str "2022-01-01 00:00")]
        [str "/repo/a.txt"] (fun _ => str "2022-01-01 00:00") false
      = Except.ok [str "/repo/a.txt"]
    ∧ selectForIndexing [(str "/repo/a.txt", str "2022-01-01 00:00")]
        [str "/repo/a.txt"] (fun _ => str "2022-01-01 00:00") false = []
    ∧ (str "/repo/a.txt" :: ([] : List Str)) ≠ [] :=
  ⟨rfl, rfl, by decide⟩

/-!
Claim C4: top-N truncation.
-/

/-- C4: the claim states that a fused, filtered result list longer than
`topN` is truncated to exactly `topN` entries with the remainder count
reported.  The code never reads `top_n`: `_sort_filter_results` only
filters by suffix and sorts, so with ten matching documents and
`topN = 3` all ten results are delivered, and the output is entirely
independent of the `top_n` parameter. -/
theorem c4_topn_code_bug :
    (sort_filter_results (QueryCommandParameters.mk (str "q") (some 3) [] (str "lastmod"))
        c4results).map List.length = some 10
    ∧ ∀ (q : Str) (t1 t2 : Option Nat) (sfx so : Str) (rs : List QueryResult),
        sort_filter_results (QueryCommandParameters.mk q t1 sfx so) rs
          = sort_filter_results (QueryCommandParameters.mk q t2 sfx so) rs :=
  ⟨by decide, fun _ _ _ _ _ _ => rfl⟩

/-!
Claim C9: body cleansing is destructive.
-/

/-- C9: the full-text row inserted by `upsert_doc` carries the cleansed
body, which contains no single-quote and no newline; hence whenever the
raw extracted body contains an apostrophe or a line break, the stored
searchable text differs from it. -/
theorem c9_cleansed_body (db : DB) (a : ADoc) (freshId : Nat) (b : Str)
    (hb : a.body = some b) (hbad : squote ∈ b ∨ nlChar ∈ b) :
    DocumentFTSRow.mk freshId a.path_ (cleansedOf a.body) ∈ (upsert_doc freshId db a).1.fts
    ∧ squote ∉ cleansedOf a.body
    ∧ nlChar ∉ cleansedOf a.body
    ∧ cleansedOf a.body ≠ b := by
  have hbne : ¬b.isEmpty := by
    rcases hbad with hq | hn
    · cases b with
      | nil => cases hq
      | cons c l => simp
    · cases b with
      | nil => cases hn
      | cons c l => simp
  have hclean : cleansedOf a.body = cleanseBody b := by
    rw [hb, cleansedOf, if_neg hbne]
  refine ⟨?_, ?_, ?_, ?_⟩
  · simp [upsert_doc]
  · rw [hclean]; exact squote_not_mem_cleanseBody b
  · rw [hclean]; exact nl_not_mem_cleanseBody b
  · rw [hclean]
    intro heq
    rcases hbad with hq | hn
    · exact squote_not_mem_cleanseBody b (heq.symm ▸ hq)
    · exact nl_not_mem_cleanseBody b (heq.symm ▸ hn)

/-- C9 witness: the concrete upsert of `c2adoc` (body `it's\nok`). -/
theorem c9_cleansed_body_witness :
    (c2adoc.body = some (str "it" ++ [squote] ++ str "s" ++ [nlChar] ++ str "ok")
      ∧ (squote ∈ (str "it" ++ [squote] ++ str "s" ++ [nlChar] ++ str "ok")
          ∨ nlChar ∈ (str "it" ++ [squote] ++ str "s" ++ [nlChar] ++ str "ok")))
    ∧ (DocumentFTSRow.mk 2 c2adoc.path_ (cleansedOf c2adoc.body) ∈ (upsert_doc 2 c2db c2adoc).1.fts
       ∧ squote ∉ cleansedOf c2adoc.body
       ∧ nlChar ∉ cleansedOf c2adoc.body
       ∧ cleansedOf c2adoc.body ≠ (str "it" ++ [squote] ++ str "s" ++ [nlChar] ++ str "ok")) :=
  ⟨⟨by decide, by decide⟩,
   c9_cleansed_body c2db c2adoc 2 (str "it" ++ [squote] ++ str "s" ++ [nlChar] ++ str "ok")
     (by decide) (by decide)⟩

/-!
Claim C10: tag-only results carry no document id.
-/

/-- C10: every `QueryResult` built by the tag-match branch has
`doc_id = None`, and `open_file` invoked with a `None` id resolves no
document and returns `None` (regardless of the database state or the
user's answer to the open prompt). -/
theorem c10_tag_result_doc_id_none (db : DB) (doc_ids : List Nat) (qs : Str)
    (r : QueryResult) (db2 : DB) (user_opens : Bool)
    (hr : r ∈ get_docs_from_tags db doc_ids qs) :
    r.doc_id = none ∧ open_file db2 r.doc_id user_opens = Except.ok none := by
  have hnone : r.doc_id = none := by
    simp only [get_docs_from_tags] at hr
    split at hr
    · cases hr
    · obtain ⟨doc, _, heq⟩ := List.mem_map.mp hr
      rw [← heq]
  refine ⟨hnone, ?_⟩
  rw [hnone]
  simp [open_file]

/-- C10 witness: the tag-only result for `draft` in the concrete
database `wDB`. -/
theorem c10_tag_result_doc_id_none_witness :
    (QueryResult.mk none (str " 0.00") (str "n.txt") (str "/a/b/c/n.txt") (str "c/n.txt")
        (str "txt") (str "2022-01-01 00:00") (str "Tag: >>>draft<<<")
      ∈ get_docs_from_tags wDB [] (str "draft"))
    ∧ ((QueryResult.mk none (str " 0.00") (str "n.txt") (str "/a/b/c/n.txt") (str "c/n.txt")
          (str "txt") (str "2022-01-01 00:00") (str "Tag: >>>draft<<<")).doc_id = none
       ∧ open_file wDB (QueryResult.mk none (str " 0.00") (str "n.txt") (str "/a/b/c/n.txt")
            (str "c/n.txt") (str "txt") (str "2022-01-01 00:00") (str "Tag: >>>draft<<<")).doc_id
            true = Except.ok none) :=
  ⟨by decide,
   c10_tag_result_doc_id_none wDB [] (str "draft") _ wDB true (by decide)⟩

/-!
Claim C6: filename date derivation.
-/

theorem yyyy_match_none_of_not_leading (nm : Str) (h : hasLeadingDate nm = false) :
    yyyy_mm_dd_match nm = none := by
  match nm, h with
  | [], _ => rfl
  | [_], _ => rfl
  | [_, _], _ => rfl
  | [_, _, _], _ => rfl
  | [_, _, _, _], _ => rfl
  | [_, _, _, _, _], _ => rfl
  | [_, _, _, _, _, _], _ => rfl
  | [_, _, _, _, _, _, _], _ => rfl
  | [_, _, _, _, _, _, _, _], _ => rfl
  | [_, _, _, _, _, _, _, _, _], _ => rfl
  | [_, _, _, _, _, _, _, _, _, _], _ => rfl
  | y1 :: y2 :: y3 :: y4 :: h1 :: m1 :: m2 :: h2 :: d1 :: d2 :: sep :: rest0, h =>
    simp only [yyyy_mm_dd_match]
    rw [if_neg]
    intro hcond
    obtain ⟨c1, c2, c3, c4, c5, c6, c7, c8, c9, c10, c11⟩ := hcond
    simp [hasLeadingDate, c1, c2, c3, c4, c5, c6, c7, c8, c10] at h
    tauto

/-- C6 counterexample: for the file name `2022-01-20.txt` the claimed
pattern (separator optional) matches, so the claim demands the explicit
date `2022-01-20 00:00`; the code's pattern requires the separator, so
`get_last_mod` returns the formatted filesystem mtime instead. -/
theorem c6_counterexample :
    get_last_mod (str "2022-01-20.txt") (Timestamp.mk 2023 5 5 10 10) = str "2023-05-05 10:10"
    ∧ claimed_get_last_mod (str "2022-01-20.txt") (Timestamp.mk 2023 5 5 10 10)
        = str "2022-01-20 00:00"
    ∧ get_last_mod (str "2022-01-20.txt") (Timestamp.mk 2023 5 5 10 10)
        ≠ claimed_get_last_mod (str "2022-01-20.txt") (Timestamp.mk 2023 5 5 10 10) := by
  refine ⟨by decide, by decide, by decide⟩

/-- C6 (amended): `get_last_mod` returns the explicit filename date
with zeroed time-of-day whenever the filename starts with `YYYY-MM-DD`
followed by a *required* separator — one of `-`, space, `_`, `T` — and
otherwise (in particular for any name failing `hasLeadingDate`) returns
the filesystem mtime formatted in the same fixed-width zero-padded
format. -/
theorem c6_date_derivation (y1 y2 y3 y4 m1 m2 d1 d2 sep : Char) (rest : Str)
    (mtime : Timestamp) (nm : Str)
    (hy1 : y1.isDigit) (hy2 : y2.isDigit) (hy3 : y3.isDigit) (hy4 : y4.isDigit)
    (hm1 : m1 = '0' ∨ m1 = '1') (hm2 : m2.isDigit)
    (hd1 : d1 = '0' ∨ d1 = '1' ∨ d1 = '2' ∨ d1 = '3') (hd2 : d2.isDigit)
    (hsep : sep = '-' ∨ sep = ' ' ∨ sep = '_' ∨ sep = 'T')
    (hnm : hasLeadingDate nm = false) :
    get_last_mod ([y1, y2, y3, y4, '-', m1, m2, '-', d1, d2, sep] ++ rest) mtime
      = [y1, y2, y3, y4] ++ str "-" ++ pad2 (10 * digitVal m1 + digitVal m2) ++ str "-"
          ++ pad2 (10 * digitVal d1 + digitVal d2) ++ str " 00:00"
    ∧ get_last_mod nm mtime = formatDatetime mtime := by
  constructor
  · have hmatch : yyyy_mm_dd_match ([y1, y2, y3, y4, '-', m1, m2, '-', d1, d2, sep] ++ rest)
        = some ([y1, y2, y3, y4], [m1, m2], [d1, d2]) := by
      show yyyy_mm_dd_match (y1 :: y2 :: y3 :: y4 :: '-' :: m1 :: m2 :: '-' :: d1 :: d2 :: sep :: rest)
        = some ([y1, y2, y3, y4], [m1, m2], [d1, d2])
      rw [yyyy_mm_dd_match, if_pos]
      exact ⟨hy1, hy2, hy3, hy4, rfl, hm1, hm2, rfl, hd1, hd2, hsep⟩
    rw [get_last_mod, hmatch]
    rfl
  · rw [get_last_mod, yyyy_match_none_of_not_leading nm hnm]

/-- C6 witness: the spec's own example `2022-01-20T13:45 notes.txt`
takes the explicit date, and `notes.txt` takes the formatted mtime. -/
theorem c6_date_derivation_witness :
    (('2').isDigit = true ∧ ('0').isDigit = true ∧ ('1').isDigit = true
      ∧ (('0' : Char) = '0' ∨ ('0' : Char) = '1')
      ∧ (('2' : Char) = '0' ∨ ('2' : Char) = '1' ∨ ('2' : Char) = '2' ∨ ('2' : Char) = '3')
      ∧ (('T' : Char) = '-' ∨ ('T' : Char) = ' ' ∨ ('T' : Char) = '_' ∨ ('T' : Char) = 'T')
      ∧ hasLeadingDate (str "notes.txt") = false)
    ∧ (get_last_mod (['2', '0', '2', '2', '-', '0', '1', '-', '2', '0', 'T'] ++ str "13:45 notes.txt")
          (Timestamp.mk 2023 5 5 10 10)
        = ['2', '0', '2', '2'] ++ str "-" ++ pad2 (10 * digitVal '0' + digitVal '1') ++ str "-"
            ++ pad2 (10 * digitVal '2' + digitVal '0') ++ str " 00:00"
       ∧ get_last_mod (str "notes.txt") (Timestamp.mk 2023 5 5 10 10)
          = formatDatetime (Timestamp.mk 2023 5 5 10 10)) :=
  ⟨⟨by decide, by decide, by decide, by decide, by decide, by decide, by decide⟩,
   c6_date_derivation '2' '0' '2' '2' '0' '1' '2' '0' 'T' (str "13:45 notes.txt")
     (Timestamp.mk 2023 5 5 10 10) (str "notes.txt")
     (by decide) (by decide) (by decide) (by decide) (by decide) (by decide)
     (by decide) (by decide) (by decide) (by decide)⟩

/-!
Claim C7: filename tag derivation.
-/

theorem matchRestGo_full (rest : Str) : ∀ acc : Str, rest ≠ [] → nlChar ∉ rest →
    (∀ k, k < rest.length → 0 < k → matchExtEnd (rest.drop k) = false) →
    matchRestGo acc rest = some (acc ++ rest) := by
  induction rest with
  | nil => intro acc h _ _; exact absurd rfl h
  | cons c rest ih =>
    intro acc _ hnl hext
    have hc : c ≠ nlChar := fun h => hnl (h ▸ List.mem_cons_self c rest)
    simp only [matchRestGo]
    rw [if_neg hc]
    cases rest with
    | nil => simp [matchExtEnd, pyAtEnd]
    | cons c2 rest2 =>
      have hext1 : matchExtEnd (c2 :: rest2) = false := by
        have := hext 1 (by simp) (by omega)
        simpa using this
      rw [if_neg (by rw [hext1]; simp)]
      have ihres := ih (acc ++ [c]) (by simp) (fun h => hnl (List.mem_cons_of_mem c h))
        (fun k hk h0 => by
          have := hext (k + 1) (by simp at hk ⊢; omega) (by omega)
          simpa using this)
      rw [ihres]
      simp

theorem findSepGo_through (tags : Str) (htags : tags ≠ []) (htnl : nlChar ∉ tags)
    (hext : ∀ k, k < tags.length → 0 < k → matchExtEnd (tags.drop k) = false) :
    ∀ (name : Str), name ≠ [] → nlChar ∉ name →
    (∀ p, p < name.length → ((name ++ sepChars ++ tags).drop p).take 4 ≠ sepChars) →
    ∀ acc : Str, findSepGo acc (name ++ sepChars ++ tags) = some (acc ++ name, tags) := by
  intro name
  induction name with
  | nil => intro h _ _ _; exact absurd rfl h
  | cons c name ih =>
    intro _ hnl hwin acc
    have hc : c ≠ nlChar := fun h => hnl (h ▸ List.mem_cons_self c name)
    simp only [List.cons_append]
    simp only [findSepGo]
    rw [if_neg hc]
    cases name with
    | nil =>
      simp only [List.nil_append]
      have htake : (sepChars ++ tags).take 4 = sepChars := rfl
      rw [if_pos htake]
      have hdrop : (sepChars ++ tags).drop 4 = tags := rfl
      rw [hdrop, matchRestGo_full tags [] htags htnl hext]
      simp
    | cons c2 name2 =>
      have hw : ((c2 :: name2) ++ sepChars ++ tags).take 4 ≠ sepChars := by
        have := hwin 1 (by simp)
        simpa using this
      rw [if_neg hw]
      have ihres := ih (by simp) (fun h => hnl (List.mem_cons_of_mem c h))
        (fun p hp => by
          have := hwin (p + 1) (by simp at hp ⊢; omega)
          simpa using this)
        (acc ++ [c])
      rw [ihres]
      simp

theorem findSepGo_none (stem : Str) : ∀ acc,
    (∀ p, ((stem.drop p).take 4) ≠ sepChars) → findSepGo acc stem = none := by
  induction stem with
  | nil => intro acc _; rfl
  | cons c rest ih =>
    intro acc hw
    simp only [findSepGo]
    by_cases hc : c = nlChar
    · rw [if_pos hc]
    · rw [if_neg hc]
      have hw1 : rest.take 4 ≠ sepChars := by
        have := hw 1
        simpa using this
      rw [if_neg hw1]
      exact ih (acc ++ [c]) (fun p => by have := hw (p + 1); simpa using this)

/-- C7 counterexample: for the stem `report -- a<TAB>b` the code's
`get_tags` splits the tag group only at spaces, yielding the single tag
`a<TAB>b`, while the claimed whitespace-split tokens are `a` and `b`. -/
theorem c7_counterexample :
    get_tags c7stem = [str "a" ++ [tabChar] ++ str "b"]
    ∧ claimed_get_tags c7stem = [str "a", str "b"]
    ∧ get_tags c7stem ≠ claimed_get_tags c7stem :=
  ⟨by decide, by decide, by decide⟩

/-- C7 (amended): when the stem has the form `<name> -- <tags>` (first
separator occurrence at the boundary, no newline, and no suffix of the
tag group that the optional extension part of the pattern would
consume), `get_tags` returns the tokens of the tag group split at
*space characters* with empty tokens discarded; and a stem containing
no `" -- "` at all yields no tags. -/
theorem c7_tag_derivation (name tags stem : Str)
    (hname : name ≠ []) (hnnl : nlChar ∉ name)
    (htags : tags ≠ []) (htnl : nlChar ∉ tags)
    (hwin : ∀ p, p < name.length → ((name ++ sepChars ++ tags).drop p).take 4 ≠ sepChars)
    (hext : ∀ k, k < tags.length → 0 < k → matchExtEnd (tags.drop k) = false)
    (hstem : ∀ p, p < stem.length → ((stem.drop p).take 4) ≠ sepChars) :
    get_tags (name ++ sepChars ++ tags) = (pySplitChar ' ' tags).filter (fun t => !t.isEmpty)
    ∧ get_tags stem = [] := by
  constructor
  · rw [get_tags, findSepGo_through tags htags htnl hext name hname hnnl hwin []]
  · rw [get_tags, findSepGo_none stem []]
    intro p
    by_cases hp : p < stem.length
    · exact hstem p hp
    · rw [List.drop_eq_nil_of_le (le_of_not_lt hp)]
      decide

/-- C7 witness: the spec's own example, stem `report -- draft final`
giving tags `draft`, `final`, and stem `report` giving none. -/
theorem c7_tag_derivation_witness :
    ((str "report" ≠ [] ∧ nlChar ∉ str "report")
      ∧ (str "draft final" ≠ [] ∧ nlChar ∉ str "draft final")
      ∧ (∀ p, p < (str "report").length →
          ((str "report" ++ sepChars ++ str "draft final").drop p).take 4 ≠ sepChars)
      ∧ (∀ k, k < (str "draft final").length → 0 < k →
          matchExtEnd ((str "draft final").drop k) = false)
      ∧ (∀ p, p < (str "report").length → (((str "report").drop p).take 4) ≠ sepChars))
    ∧ (get_tags (str "report" ++ sepChars ++ str "draft final")
        = (pySplitChar ' ' (str "draft final")).filter (fun t => !t.isEmpty)
       ∧ get_tags (str "report") = []) :=
  ⟨⟨⟨by decide, by decide⟩, ⟨by decide, by decide⟩, by decide, by decide, by decide⟩,
   c7_tag_derivation (str "report") (str "draft final") (str "report")
     (by decide) (by decide) (by decide) (by decide) (by decide) (by decide) (by decide)⟩

/-!
Claim C5: malformed org link markup.
-/

theorem filterSBStep_go (ls : List Str) : ∀ st : Bool × List Str, st.1 = false →
    (∀ l ∈ ls, pyStartsWith (str "#+begin_src") (pyLower (pyStrip l)) = false
             ∧ pyStartsWith (str "#+end_src") (pyLower (pyStrip l)) = false) →
    ls.foldl filterSBStep st = (false, st.2 ++ ls) := by
  induction ls with
  | nil =>
    intro st h1 _
    cases st
    simp at h1
    simp [h1]
  | cons l ls ih =>
    intro st h1 hsrc
    have hl := hsrc l (List.mem_cons_self l ls)
    have hstep : filterSBStep st l = (st.1, st.2 ++ [l]) := by
      rw [filterSBStep]
      rw [if_neg (by rw [hl.1]; simp), if_neg (by rw [hl.2]; simp), if_neg (by rw [h1]; simp)]
    rw [List.foldl_cons, hstep,
      ih (st.1, st.2 ++ [l]) h1 (fun x hx => hsrc x (List.mem_cons_of_mem l hx))]
    simp

theorem filterSourceBlocks_id (ls : List Str)
    (hsrc : ∀ l ∈ ls, pyStartsWith (str "#+begin_src") (pyLower (pyStrip l)) = false
                    ∧ pyStartsWith (str "#+end_src") (pyLower (pyStrip l)) = false) :
    filterSourceBlocks ls = ls := by
  rw [filterSourceBlocks, filterSBStep_go ls (false, []) rfl hsrc]
  simp

theorem textOrgStep_go (ls : List Str) : ∀ st : List Str × List OrgLink,
    ls.foldl textOrgStep st
      = (st.1 ++ (ls.map pyStrip).filter (fun l => !l.isEmpty),
         st.2 ++ (ls.map (fun l =>
            match get_org_links (pyStrip l) with
            | some lks => lks
            | none => [])).flatten) := by
  induction ls with
  | nil => intro st; cases st; simp
  | cons l ls ih =>
    intro st
    rw [List.foldl_cons, ih (textOrgStep st l)]
    by_cases hempty : (pyStrip l).isEmpty
    · have hnil : pyStrip l = [] := by
        cases hp : pyStrip l
        · rfl
        · rw [hp] at hempty; simp at hempty
      have hstep : textOrgStep st l = st := by rw [textOrgStep, if_pos hempty]
      rw [hstep]
      simp [hnil, show get_org_links ([] : Str) = some [] from rfl]
    · have hstep : textOrgStep st l
          = (st.1 ++ [pyStrip l],
             match get_org_links (pyStrip l) with
             | some (x :: xs) => st.2 ++ (x :: xs)
             | _ => st.2) := by
        rw [textOrgStep, if_neg hempty]
      rw [hstep]
      simp [hempty]
      cases hlk : get_org_links (pyStrip l) with
      | none => simp
      | some lks =>
        cases lks with
        | nil => simp
        | cons x xs => simp

/-- C5 counterexample: a document whose second line has an unterminated
bracket pair.  The claim says link extraction for the whole document is
aborted with a reported error; in fact `get_org_links` returns `None`
for the malformed line only (silently — the caller treats `None` like
"no links"), and the link of the first line is still delivered, so the
document's link extraction is not aborted. -/
theorem c5_counterexample :
    (get_text_from_org [str "[[u]] ok", str "bad [[x"]).2 = [(str "u", none)]
    ∧ ([(str "u", (none : Option Str))] : List OrgLink) ≠ []
    ∧ get_org_links (str "bad [[x") = none :=
  ⟨by decide, by decide, by decide⟩

/-- C5 (amended): malformed link markup on a line aborts link
extraction for *that line only*, silently: for any org document (with
no source-block markers), the extracted body is the space-join of all
stripped non-blank lines — body extraction proceeds for every line —
and the extracted links are the concatenation, line by line, of each
line's `get_org_links` result, where a malformed line (`None`)
contributes nothing and no error is reported. -/
theorem c5_malformed_line_dropped (ls : List Str)
    (hsrc : ∀ l ∈ ls, pyStartsWith (str "#+begin_src") (pyLower (pyStrip l)) = false
                    ∧ pyStartsWith (str "#+end_src") (pyLower (pyStrip l)) = false) :
    get_text_from_org ls
      = (pyJoin (str " ") ((ls.map pyStrip).filter (fun l => !l.isEmpty)),
         (ls.map (fun l =>
            match get_org_links (pyStrip l) with
            | some lks => lks
            | none => [])).flatten) := by
  simp only [get_text_from_org]
  rw [filterSourceBlocks_id ls hsrc, textOrgStep_go ls ([], [])]
  simp

/-- C5 witness: the two-line document with one good link line and one
malformed line. -/
theorem c5_malformed_line_dropped_witness :
    (∀ l ∈ [str "[[u]] ok", str "bad [[x"],
        pyStartsWith (str "#+begin_src") (pyLower (pyStrip l)) = false
        ∧ pyStartsWith (str "#+end_src") (pyLower (pyStrip l)) = false)
    ∧ get_text_from_org [str "[[u]] ok", str "bad [[x"]
        = (pyJoin (str " ")
            (([str "[[u]] ok", str "bad [[x"].map pyStrip).filter (fun l => !l.isEmpty)),
           ([str "[[u]] ok", str "bad [[x"].map (fun l =>
              match get_org_links (pyStrip l) with
              | some lks => lks
              | none => [])).flatten) :=
  ⟨by decide, c5_malformed_line_dropped [str "[[u]] ok", str "bad [[x"] (by decide)⟩

/-!
Claim C2: upsert replaces all state for a path.
-/

theorem foldl_delete_documents (ds : List Document) : ∀ db : DB,
    (ds.foldl deleteOneDoc db).documents
      = db.documents.filter (fun d => ds.all (fun x => d.id ≠ x.id)) := by
  induction ds with
  | nil => intro db; simp
  | cons x ds ih =>
    intro db
    rw [List.foldl_cons, ih (deleteOneDoc db x)]
    show (db.documents.filter (fun d => d.id ≠ x.id)).filter _ = _
    rw [List.filter_filter]
    apply List.filter_congr
    intro d _
    simp [List.all_cons, Bool.and_comm]

theorem foldl_delete_tags (ds : List Document) : ∀ db : DB,
    (ds.foldl deleteOneDoc db).tags
      = db.tags.filter (fun t => ds.all (fun x => t.doc_id ≠ x.id)) := by
  induction ds with
  | nil => intro db; simp
  | cons x ds ih =>
    intro db
    rw [List.foldl_cons, ih (deleteOneDoc db x)]
    show (db.tags.filter (fun t => t.doc_id ≠ x.id)).filter _ = _
    rw [List.filter_filter]
    apply List.filter_congr
    intro t _
    simp [List.all_cons, Bool.and_comm]

theorem foldl_delete_links (ds : List Document) : ∀ db : DB,
    (ds.foldl deleteOneDoc db).links
      = db.links.filter (fun l => ds.all (fun x => l.doc_id ≠ x.id)) := by
  induction ds with
  | nil => intro db; simp
  | cons x ds ih =>
    intro db
    rw [List.foldl_cons, ih (deleteOneDoc db x)]
    show (db.links.filter (fun l => l.doc_id ≠ x.id)).filter _ = _
    rw [List.filter_filter]
    apply List.filter_congr
    intro l _
    simp [List.all_cons, Bool.and_comm]

theorem foldl_delete_fts (ds : List Document) : ∀ db : DB,
    (ds.foldl deleteOneDoc db).fts
      = db.fts.filter (fun f => ds.all (fun x => f.path ≠ x.path)) := by
  induction ds with
  | nil => intro db; simp
  | cons x ds ih =>
    intro db
    rw [List.foldl_cons, ih (deleteOneDoc db x)]
    show (db.fts.filter (fun f => f.path ≠ x.path)).filter _ = _
    rw [List.filter_filter]
    apply List.filter_congr
    intro f _
    simp [List.all_cons, Bool.and_comm]


/-- C2: after `upsert_doc` completes for a path (with a fresh primary
key, as peewee guarantees), exactly one `Document` row exists with that
path — the freshly inserted one; the tag rows of the new document are
exactly the freshly extracted tags and no tag row of any previously
stored document for that path survives; likewise the link rows and the
full-text row are wholly replaced (delete-prior-state-then-insert,
never an in-place merge). -/
theorem c2_upsert_replaces_state (db : DB) (a : ADoc) (freshId : Nat)
    (hdoc : ∀ d ∈ db.documents, d.id ≠ freshId)
    (htag : ∀ t ∈ db.tags, t.doc_id ≠ freshId)
    (hlink : ∀ l ∈ db.links, l.doc_id ≠ freshId)
    (hfts : ∀ f ∈ db.fts, f.path = a.path_ → ∃ d ∈ db.documents, d.path = a.path_) :
    ((upsert_doc freshId db a).1.documents.filter (fun d => d.path = a.path_)
        = [Document.mk freshId a.path_ a.suffix a.lmod a.now])
    ∧ (((upsert_doc freshId db a).1.tags.filter (fun t => t.doc_id = freshId)).map
          (fun t => t.tag) = a.tags)
    ∧ (∀ t ∈ (upsert_doc freshId db a).1.tags, ∀ d0 ∈ db.documents,
        d0.path = a.path_ → t.doc_id ≠ d0.id)
    ∧ (((upsert_doc freshId db a).1.links.filter (fun l => l.doc_id = freshId)).map
          (fun l => (l.url, l.desc)) = a.links)
    ∧ (∀ l ∈ (upsert_doc freshId db a).1.links, ∀ d0 ∈ db.documents,
        d0.path = a.path_ → l.doc_id ≠ d0.id)
    ∧ ((upsert_doc freshId db a).1.fts.filter (fun f => f.path = a.path_)
        = [DocumentFTSRow.mk freshId a.path_ (cleansedOf a.body)]) := by
  have hupdocs : (upsert_doc freshId db a).1.documents
      = (check_delete_existing db a.path_).1.documents
          ++ [Document.mk freshId a.path_ a.suffix a.lmod a.now] := rfl
  have huptags : (upsert_doc freshId db a).1.tags
      = (check_delete_existing db a.path_).1.tags
          ++ a.tags.map (fun t => DocumentTagRow.mk freshId t) := rfl
  have huplinks : (upsert_doc freshId db a).1.links
      = (check_delete_existing db a.path_).1.links
          ++ a.links.map (fun l => DocumentLinkRow.mk freshId l.1 l.2) := rfl
  have hupfts : (upsert_doc freshId db a).1.fts
      = (check_delete_existing db a.path_).1.fts
          ++ [DocumentFTSRow.mk freshId a.path_ (cleansedOf a.body)] := rfl
  have hnewtags :
      ((a.tags.map (fun t => DocumentTagRow.mk freshId t)).filter
          (fun t => t.doc_id = freshId)).map (fun t => t.tag) = a.tags := by
    induction a.tags with
    | nil => rfl
    | cons x xs ih => simpa using ih
  have hnewlinks :
      ((a.links.map (fun l => DocumentLinkRow.mk freshId l.1 l.2)).filter
          (fun l => l.doc_id = freshId)).map (fun l => (l.url, l.desc)) = a.links := by
    induction a.links with
    | nil => rfl
    | cons x xs ih => simpa using ih
  by_cases hex : db.documents.filter (fun d => d.path = a.path_) = []
  · -- no prior document for this path: the deletion pass does nothing
    have hnopath : ∀ d ∈ db.documents, ¬(d.path = a.path_) := by
      intro d hd hp
      have : d ∈ db.documents.filter (fun d => d.path = a.path_) :=
        List.mem_filter.mpr ⟨hd, by simp [hp]⟩
      rw [hex] at this
      cases this
    have hdb0 : (check_delete_existing db a.path_).1 = db := by
      rw [check_delete_existing]
      simp only [hex]
      rfl
    rw [hdb0] at hupdocs huptags huplinks hupfts
    refine ⟨?_, ?_, ?_, ?_, ?_, ?_⟩
    · rw [hupdocs, List.filter_append, hex]
      simp
    · rw [huptags, List.filter_append]
      have : db.tags.filter (fun t => t.doc_id = freshId) = [] :=
        List.filter_eq_nil_iff.mpr (fun t ht => by simp [htag t ht])
      rw [this, List.nil_append, hnewtags]
    · intro t _ d0 hd0 hp
      exact absurd hp (hnopath d0 hd0)
    · rw [huplinks, List.filter_append]
      have : db.links.filter (fun l => l.doc_id = freshId) = [] :=
        List.filter_eq_nil_iff.mpr (fun l hl => by simp [hlink l hl])
      rw [this, List.nil_append, hnewlinks]
    · intro l _ d0 hd0 hp
      exact absurd hp (hnopath d0 hd0)
    · rw [hupfts, List.filter_append]
      have : db.fts.filter (fun f => f.path = a.path_) = [] := by
        apply List.filter_eq_nil_iff.mpr
        intro f hf
        simp only [decide_eq_true_eq]
        intro hp
        obtain ⟨d, hd, hdp⟩ := hfts f hf hp
        exact hnopath d hd hdp
      rw [this, List.nil_append]
      simp
  · -- at least one prior document: the deletion pass removes its state
    have hie : (db.documents.filter (fun d => d.path = a.path_)).isEmpty = false := by
      cases hfe : db.documents.filter (fun d => d.path = a.path_) with
      | nil => exact absurd hfe hex
      | cons y l => rfl
    have hdb0 : (check_delete_existing db a.path_).1
        = (db.documents.filter (fun d => d.path = a.path_)).foldl deleteOneDoc db := by
      rw [check_delete_existing]
      simp only [hie]
      rfl
    have hmemds : ∀ d0 ∈ db.documents, d0.path = a.path_ →
        d0 ∈ db.documents.filter (fun d => d.path = a.path_) := by
      intro d0 hd0 hp
      exact List.mem_filter.mpr ⟨hd0, by simp [hp]⟩
    rw [hdb0] at hupdocs huptags huplinks hupfts
    refine ⟨?_, ?_, ?_, ?_, ?_, ?_⟩
    · rw [hupdocs, List.filter_append, foldl_delete_documents, List.filter_filter]
      have : db.documents.filter
          (fun d => (d.path = a.path_) && ((db.documents.filter (fun x => x.path = a.path_)).all
              (fun x => d.id ≠ x.id))) = [] := by
        apply List.filter_eq_nil_iff.mpr
        intro d hd
        simp only [Bool.and_eq_true, List.all_eq_true, decide_eq_true_eq, not_and]
        intro hp hall
        exact hall d (hmemds d hd hp) rfl
      rw [this, List.nil_append]
      simp
    · rw [huptags, List.filter_append, foldl_delete_tags, List.filter_filter]
      have : db.tags.filter
          (fun t => (t.doc_id = freshId) && ((db.documents.filter (fun x => x.path = a.path_)).all
              (fun x => t.doc_id ≠ x.id))) = [] := by
        apply List.filter_eq_nil_iff.mpr
        intro t ht
        simp only [Bool.and_eq_true, List.all_eq_true, decide_eq_true_eq, not_and]
        intro hfid _
        exact htag t ht hfid
      rw [this, List.nil_append, hnewtags]
    · intro t htm d0 hd0 hp
      rw [huptags] at htm
      rcases List.mem_append.mp htm with hold | hnew
      · rw [foldl_delete_tags] at hold
        have hall := (List.mem_filter.mp hold).2
        simp only [List.all_eq_true, decide_eq_true_eq] at hall
        exact hall d0 (hmemds d0 hd0 hp)
      · obtain ⟨tg, _, heq⟩ := List.mem_map.mp hnew
        rw [← heq]
        intro hcontra
        exact hdoc d0 hd0 hcontra.symm
    · rw [huplinks, List.filter_append, foldl_delete_links, List.filter_filter]
      have : db.links.filter
          (fun l => (l.doc_id = freshId) && ((db.documents.filter (fun x => x.path = a.path_)).all
              (fun x => l.doc_id ≠ x.id))) = [] := by
        apply List.filter_eq_nil_iff.mpr
        intro l hl
        simp only [Bool.and_eq_true, List.all_eq_true, decide_eq_true_eq, not_and]
        intro hfid _
        exact hlink l hl hfid
      rw [this, List.nil_append, hnewlinks]
    · intro l hlm d0 hd0 hp
      rw [huplinks] at hlm
      rcases List.mem_append.mp hlm with hold | hnew
      · rw [foldl_delete_links] at hold
        have hall := (List.mem_filter.mp hold).2
        simp only [List.all_eq_true, decide_eq_true_eq] at hall
        exact hall d0 (hmemds d0 hd0 hp)
      · obtain ⟨lk, _, heq⟩ := List.mem_map.mp hnew
        rw [← heq]
        intro hcontra
        exact hdoc d0 hd0 hcontra.symm
    · rw [hupfts, List.filter_append, foldl_delete_fts, List.filter_filter]
      obtain ⟨x0, hx0⟩ : ∃ x0, x0 ∈ db.documents.filter (fun d => d.path = a.path_) := by
        cases hfe : db.documents.filter (fun d => d.path = a.path_) with
        | nil => exact absurd hfe hex
        | cons y l => exact ⟨y, List.mem_cons_self y l⟩
      have hx0p : x0.path = a.path_ := by
        have := (List.mem_filter.mp hx0).2
        simpa using this
      have : db.fts.filter
          (fun f => (f.path = a.path_) && ((db.documents.filter (fun x => x.path = a.path_)).all
              (fun x => f.path ≠ x.path))) = [] := by
        apply List.filter_eq_nil_iff.mpr
        intro f hf
        simp only [Bool.and_eq_true, List.all_eq_true, decide_eq_true_eq, not_and]
        intro hp hall
        exact hall x0 hx0 (by rw [hp, hx0p])
      rw [this, List.nil_append]
      simp

/-- C2 witness: re-indexing the already indexed path `/r/a.org` in the
concrete database `c2db` with fresh id 2. -/
theorem c2_upsert_replaces_state_witness :
    ((∀ d ∈ c2db.documents, d.id ≠ 2)
      ∧ (∀ t ∈ c2db.tags, t.doc_id ≠ 2)
      ∧ (∀ l ∈ c2db.links, l.doc_id ≠ 2)
      ∧ (∀ f ∈ c2db.fts, f.path = c2adoc.path_ → ∃ d ∈ c2db.documents, d.path = c2adoc.path_))
    ∧ (((upsert_doc 2 c2db c2adoc).1.documents.filter (fun d => d.path = c2adoc.path_)
          = [Document.mk 2 c2adoc.path_ c2adoc.suffix c2adoc.lmod c2adoc.now])
       ∧ (((upsert_doc 2 c2db c2adoc).1.tags.filter (fun t => t.doc_id = 2)).map
             (fun t => t.tag) = c2adoc.tags)
       ∧ (∀ t ∈ (upsert_doc 2 c2db c2adoc).1.tags, ∀ d0 ∈ c2db.documents,
           d0.path = c2adoc.path_ → t.doc_id ≠ d0.id)
       ∧ (((upsert_doc 2 c2db c2adoc).1.links.filter (fun l => l.doc_id = 2)).map
             (fun l => (l.url, l.desc)) = c2adoc.links)
       ∧ (∀ l ∈ (upsert_doc 2 c2db c2adoc).1.links, ∀ d0 ∈ c2db.documents,
           d0.path = c2adoc.path_ → l.doc_id ≠ d0.id)
       ∧ ((upsert_doc 2 c2db c2adoc).1.fts.filter (fun f => f.path = c2adoc.path_)
           = [DocumentFTSRow.mk 2 c2adoc.path_ (cleansedOf c2adoc.body)])) :=
  ⟨⟨by decide, by decide, by decide, by decide⟩,
   c2_upsert_replaces_state c2db c2adoc 2 (by decide) (by decide) (by decide) (by decide)⟩

/-!
Claim C8: org links on a well-formed line, in order.
-/

theorem noBrackets_spec (s : Str) (h : noBrackets s = true) :
    ∀ c ∈ s, c ≠ '[' ∧ c ≠ ']' := by
  simp only [noBrackets, List.all_eq_true, decide_eq_true_eq] at h
  exact h

theorem split2_hit (a b : Char) (l : Str) : splitOnFirst2 a b (a :: b :: l) = some ([], l) := by
  simp [splitOnFirst2]

theorem split2_skip2 (a b c d : Char) (l : Str) (h : ¬(c = a ∧ d = b)) :
    splitOnFirst2 a b (c :: d :: l)
      = (splitOnFirst2 a b (d :: l)).map (fun pr => (c :: pr.1, pr.2)) := by
  rw [splitOnFirst2, if_neg h]
  cases h2 : splitOnFirst2 a b (d :: l) with
  | none => rfl
  | some pr => obtain ⟨pre, post⟩ := pr; rfl

theorem split2_skip1 (a b c : Char) (l : Str) (h : c ≠ a) :
    splitOnFirst2 a b (c :: l) = (splitOnFirst2 a b l).map (fun pr => (c :: pr.1, pr.2)) := by
  cases l with
  | nil => rfl
  | cons d rest => exact split2_skip2 a b c d rest (fun hcd => h hcd.1)

theorem split2_clean_front (a b : Char) (t : Str) (h : ∀ c ∈ t, c ≠ a) : ∀ l : Str,
    splitOnFirst2 a b (t ++ l) = (splitOnFirst2 a b l).map (fun pr => (t ++ pr.1, pr.2)) := by
  induction t with
  | nil =>
    intro l
    rw [List.nil_append]
    cases hres : splitOnFirst2 a b l with
    | none => rfl
    | some pr => obtain ⟨pre, post⟩ := pr; rfl
  | cons c t ih =>
    intro l
    rw [List.cons_append, split2_skip1 a b c (t ++ l) (h c (List.mem_cons_self c t)),
      ih (fun x hx => h x (List.mem_cons_of_mem c hx)) l]
    cases splitOnFirst2 a b l with
    | none => rfl
    | some pr => obtain ⟨pre, post⟩ := pr; rfl

theorem split2_none (a b : Char) (l : Str) (h : ∀ c ∈ l, c ≠ a) :
    splitOnFirst2 a b l = none := by
  induction l with
  | nil => rfl
  | cons c rest ih =>
    rw [split2_skip1 a b c rest (h c (List.mem_cons_self c rest)),
      ih (fun x hx => h x (List.mem_cons_of_mem c hx))]
    rfl

theorem splitAll2Go_of_none (a b : Char) (l : Str) (h : splitOnFirst2 a b l = none) :
    ∀ fuel, splitAll2Go fuel a b l = [l] := by
  intro fuel
  cases fuel with
  | zero => rfl
  | succ n =>
    show (match splitOnFirst2 a b l with
          | none => [l]
          | some (pre, post) => pre :: splitAll2Go n a b post) = [l]
    rw [h]

theorem splitAll2_single_sep (a b : Char) (u d : Str)
    (hu : ∀ c ∈ u, c ≠ a) (hd : ∀ c ∈ d, c ≠ a) :
    splitAll2 a b (u ++ a :: b :: d) = [u, d] := by
  have hsplit : splitOnFirst2 a b (u ++ a :: b :: d) = some (u, d) := by
    rw [split2_clean_front a b u hu (a :: b :: d), split2_hit]
    simp
  have hlen : (u ++ a :: b :: d).length = u.length + d.length + 1 + 1 := by
    simp [List.length_append]
    omega
  rw [splitAll2, hlen]
  show (match splitOnFirst2 a b (u ++ a :: b :: d) with
        | none => [u ++ a :: b :: d]
        | some (pre, post) => pre :: splitAll2Go (u.length + d.length + 1) a b post) = [u, d]
  rw [hsplit]
  show u :: splitAll2Go (u.length + d.length + 1) a b d = [u, d]
  rw [splitAll2Go_of_none a b d (split2_none a b d hd)]

theorem orgLinksGo_no_lb (fuel : Nat) (line : Str) (acc : List OrgLink)
    (h : splitOnFirst2 '[' '[' line = none) :
    orgLinksGo (fuel + 1) line acc = some acc := by
  simp only [orgLinksGo, h]

theorem orgLinksGo_step (fuel : Nat) (line : Str) (acc : List OrgLink)
    (pre rest url_desc after1 pre2 line1 : Str) (lk : OrgLink)
    (h1 : splitOnFirst2 '[' '[' line = some (pre, rest))
    (h2 : splitOnFirst2 ']' ']' rest = some (url_desc, after1))
    (h3 : parseUrlDesc url_desc = some lk)
    (h4 : splitOnFirst2 ']' ']' line = some (pre2, line1)) :
    orgLinksGo (fuel + 1) line acc = orgLinksGo fuel line1 (acc ++ [lk]) := by
  simp only [orgLinksGo, h1, h2, h3, h4]

theorem orgLinksGo_render : ∀ (items : List (Str × OrgLink)),
    (∀ p ∈ items, noBrackets p.1 = true ∧ noBrackets p.2.1 = true
        ∧ ∀ dsc, p.2.2 = some dsc → noBrackets dsc = true) →
    ∀ (tail : Str), noBrackets tail = true → ∀ (acc : List OrgLink) (fuel : Nat),
      (renderLine items tail).length < fuel →
      orgLinksGo fuel (renderLine items tail) acc
        = some (acc ++ items.map (fun p => p.2)) := by
  intro items
  induction items with
  | nil =>
    intro _ tail htail acc fuel hfuel
    cases fuel with
    | zero => exact absurd hfuel (Nat.not_lt_zero _)
    | succ n =>
      show orgLinksGo (n + 1) tail acc = some (acc ++ [])
      rw [orgLinksGo_no_lb n tail acc
        (split2_none '[' '[' tail (fun c hc => (noBrackets_spec tail htail c hc).1))]
      simp
  | cons p rest ih =>
    obtain ⟨t, u, ds⟩ := p
    intro hclean tail htail acc fuel hfuel
    have hp := hclean (t, (u, ds)) (List.mem_cons_self _ _)
    have ht : ∀ c ∈ t, c ≠ '[' ∧ c ≠ ']' := noBrackets_spec t hp.1
    have hu : ∀ c ∈ u, c ≠ '[' ∧ c ≠ ']' := noBrackets_spec u hp.2.1
    have hrest : ∀ q ∈ rest, noBrackets q.1 = true ∧ noBrackets q.2.1 = true
        ∧ ∀ dsc, q.2.2 = some dsc → noBrackets dsc = true :=
      fun q hq => hclean q (List.mem_cons_of_mem _ hq)
    cases fuel with
    | zero => exact absurd hfuel (Nat.not_lt_zero _)
    | succ n =>
      cases ds with
      | none =>
        have hline : renderLine ((t, (u, none)) :: rest) tail
            = t ++ '[' :: '[' :: (u ++ ']' :: ']' :: renderLine rest tail) := by
          rw [renderLine, renderLink]
          simp
        have h1 : splitOnFirst2 '[' '[' (t ++ '[' :: '[' :: (u ++ ']' :: ']' :: renderLine rest tail))
            = some (t, u ++ ']' :: ']' :: renderLine rest tail) := by
          rw [split2_clean_front '[' '[' t (fun c hc => (ht c hc).1), split2_hit]
          simp
        have h2 : splitOnFirst2 ']' ']' (u ++ ']' :: ']' :: renderLine rest tail)
            = some (u, renderLine rest tail) := by
          rw [split2_clean_front ']' ']' u (fun c hc => (hu c hc).2), split2_hit]
          simp
        have h3 : parseUrlDesc u = some (u, none) := by
          rw [parseUrlDesc, splitAll2,
            splitAll2Go_of_none ']' '[' u (split2_none ']' '[' u (fun c hc => (hu c hc).2))]
        have h4 : splitOnFirst2 ']' ']' (t ++ '[' :: '[' :: (u ++ ']' :: ']' :: renderLine rest tail))
            = some (t ++ '[' :: '[' :: u, renderLine rest tail) := by
          rw [split2_clean_front ']' ']' t (fun c hc => (ht c hc).2),
            split2_skip1 ']' ']' '[' _ (by decide), split2_skip1 ']' ']' '[' _ (by decide), h2]
          simp
        have hlen : (renderLine rest tail).length < n := by
          rw [hline] at hfuel
          simp [List.length_append] at hfuel
          omega
        rw [hline, orgLinksGo_step n _ acc t (u ++ ']' :: ']' :: renderLine rest tail) u
          (renderLine rest tail) (t ++ '[' :: '[' :: u) (renderLine rest tail) (u, none)
          h1 h2 h3 h4,
          ih hrest tail htail (acc ++ [(u, none)]) n hlen]
        simp
      | some dsc =>
        have hdc : ∀ c ∈ dsc, c ≠ '[' ∧ c ≠ ']' :=
          noBrackets_spec dsc (hp.2.2 dsc rfl)
        have hline : renderLine ((t, (u, some dsc)) :: rest) tail
            = t ++ '[' :: '[' :: (u ++ ']' :: '[' :: (dsc ++ ']' :: ']' :: renderLine rest tail)) := by
          rw [renderLine, renderLink]
          simp
        have h2 : splitOnFirst2 ']' ']' (u ++ ']' :: '[' :: (dsc ++ ']' :: ']' :: renderLine rest tail))
            = some (u ++ ']' :: '[' :: dsc, renderLine rest tail) := by
          rw [split2_clean_front ']' ']' u (fun c hc => (hu c hc).2),
            split2_skip2 ']' ']' ']' '[' _ (by decide), split2_skip1 ']' ']' '[' _ (by decide),
            split2_clean_front ']' ']' dsc (fun c hc => (hdc c hc).2), split2_hit]
          simp
        have h1 : splitOnFirst2 '[' '['
              (t ++ '[' :: '[' :: (u ++ ']' :: '[' :: (dsc ++ ']' :: ']' :: renderLine rest tail)))
            = some (t, u ++ ']' :: '[' :: (dsc ++ ']' :: ']' :: renderLine rest tail)) := by
          rw [split2_clean_front '[' '[' t (fun c hc => (ht c hc).1), split2_hit]
          simp
        have h3 : parseUrlDesc (u ++ ']' :: '[' :: dsc) = some (u, some dsc) := by
          rw [parseUrlDesc, splitAll2_single_sep ']' '[' u dsc
            (fun c hc => (hu c hc).2) (fun c hc => (hdc c hc).2)]
        have h4 : splitOnFirst2 ']' ']'
              (t ++ '[' :: '[' :: (u ++ ']' :: '[' :: (dsc ++ ']' :: ']' :: renderLine rest tail)))
            = some (t ++ '[' :: '[' :: (u ++ ']' :: '[' :: dsc), renderLine rest tail) := by
          rw [split2_clean_front ']' ']' t (fun c hc => (ht c hc).2),
            split2_skip1 ']' ']' '[' _ (by decide), split2_skip1 ']' ']' '[' _ (by decide), h2]
          simp
        have hlen : (renderLine rest tail).length < n := by
          rw [hline] at hfuel
          simp [List.length_append] at hfuel
          omega
        rw [hline, orgLinksGo_step n _ acc t
          (u ++ ']' :: '[' :: (dsc ++ ']' :: ']' :: renderLine rest tail)) (u ++ ']' :: '[' :: dsc)
          (renderLine rest tail) (t ++ '[' :: '[' :: (u ++ ']' :: '[' :: dsc))
          (renderLine rest tail) (u, some dsc) h1 h2 h3 h4,
          ih hrest tail htail (acc ++ [(u, some dsc)]) n hlen]
        simp

/-- C8: on a well-formed line — fillers, urls and descriptions free of
square brackets, links rendered as `[[url]]` or `[[url][desc]]` —
`get_org_links` returns `(url, None)` for each bare form and
`(url, desc)` for each described form, and several links on one line
are all captured in left-to-right order of appearance. -/
theorem c8_org_links_in_order (items : List (Str × OrgLink)) (tail : Str)
    (hclean : ∀ p ∈ items, noBrackets p.1 = true ∧ noBrackets p.2.1 = true
        ∧ ∀ dsc, p.2.2 = some dsc → noBrackets dsc = true)
    (htail : noBrackets tail = true) :
    get_org_links (renderLine items tail) = some (items.map (fun p => p.2)) := by
  rw [get_org_links, orgLinksGo_render items hclean tail htail []
    ((renderLine items tail).length + 1) (Nat.lt_succ_self _)]
  simp

/-- C8 witness: the two-link line rendered from `c8items` — a bare
`[[https://x.com]]` followed by `[[https://y.org][A Desc]]`. -/
theorem c8_org_links_in_order_witness :
    ((∀ p ∈ c8items, noBrackets p.1 = true ∧ noBrackets p.2.1 = true
        ∧ ∀ dsc, p.2.2 = some dsc → noBrackets dsc = true)
      ∧ noBrackets (str " end") = true)
    ∧ get_org_links (renderLine c8items (str " end"))
        = some (c8items.map (fun p => p.2)) :=
  ⟨⟨by decide, by decide⟩,
   c8_org_links_in_order c8items (str " end") (by decide) (by decide)⟩

/-!
Claim C3: fusion deduplication.
-/

theorem find_unique {α : Type} (p : α → Bool) (l : List α) (x : α)
    (hx : x ∈ l) (hpx : p x = true) (huniq : ∀ y ∈ l, p y = true → y = x) :
    l.find? p = some x := by
  induction l with
  | nil => cases hx
  | cons a l ih =>
    by_cases hpa : p a = true
    · rw [List.find?_cons_of_pos _ hpa, huniq a (List.mem_cons_self a l) hpa]
    · rw [List.find?_cons_of_neg _ (by simpa using hpa)]
      apply ih
      · rcases List.mem_cons.mp hx with hxa | hxl
        · exact absurd (hxa ▸ hpx) hpa
        · exact hxl
      · exact fun y hy hpy => huniq y (List.mem_cons_of_mem a hy) hpy

theorem filterMap_filter_single {α β : Type} (f : α → Option β) (p : β → Bool)
    (keyOf : α → Nat) : ∀ (l : List α) (x : α) (e : β),
    (l.map keyOf).Nodup → x ∈ l → f x = some e → p e = true →
    (∀ a ∈ l, keyOf a ≠ keyOf x → ∀ b, f a = some b → p b = false) →
    (l.filterMap f).filter p = [e] := by
  intro l
  induction l with
  | nil => intro x e _ hx; cases hx
  | cons a l ih =>
    intro x e hnd hx hfe hpe hothers
    rw [List.map_cons, List.nodup_cons] at hnd
    rcases List.mem_cons.mp hx with hxa | hxl
    · subst hxa
      rw [List.filterMap_cons_some hfe, List.filter_cons_of_pos hpe]
      have hrest : (l.filterMap f).filter p = [] := by
        apply List.filter_eq_nil_iff.mpr
        intro b hb
        obtain ⟨a', ha', hfa'⟩ := List.mem_filterMap.mp hb
        have hkey : keyOf a' ≠ keyOf x := by
          intro hk
          exact hnd.1 (hk ▸ List.mem_map_of_mem keyOf ha')
        simp [hothers a' (List.mem_cons_of_mem x ha') hkey b hfa']
      rw [hrest]
    · have hkey : keyOf a ≠ keyOf x := by
        intro hk
        exact hnd.1 (hk ▸ List.mem_map_of_mem keyOf hxl)
      cases hfa : f a with
      | none =>
        rw [List.filterMap_cons_none hfa]
        exact ih x e hnd.2 hxl hfe hpe
          (fun a' ha' => hothers a' (List.mem_cons_of_mem a ha'))
      | some b =>
        rw [List.filterMap_cons_some hfa,
          List.filter_cons_of_neg (by simp [hothers a (List.mem_cons_self a l) hkey b hfa])]
        exact ih x e hnd.2 hxl hfe hpe
          (fun a' ha' => hothers a' (List.mem_cons_of_mem a ha'))

/-- C3: a document matched by both the full-text search and the exact
tag query appears exactly once in the fused result list — as its
full-text entry, carrying the hit's rank and snippet (the tag branch
drops every document id already returned by the full-text search) —
and every tag-only entry carries the fixed low-sentinel rank `" 0.00"`
and the synthetic snippet `Tag: >>>query<<<`. -/
theorem c3_fusion_dedup (db : DB) (hits : List FTSHit) (qs : Str)
    (d : Document) (h : FTSHit) (t : DocumentTagRow)
    (hids : (db.documents.map (fun x => x.id)).Nodup)
    (hpaths : (db.documents.map (fun x => x.path)).Nodup)
    (hrows : (hits.map (fun x => x.rowid)).Nodup)
    (hd : d ∈ db.documents) (hh : h ∈ hits) (hmatch : h.rowid = d.id)
    (ht : t ∈ db.tags) (htag : t.tag = qs) (htd : t.doc_id = d.id) :
    (query db hits qs).filter (fun r => r.path_full = d.path)
      = [QueryResult.mk (some d.id) h.rank (pathName d.path) d.path (pathRel d.path)
          d.suffix d.last_mod h.snippet]
    ∧ ∀ r ∈ query db hits qs, r.doc_id = none →
        (r.rank = str " 0.00" ∧ r.snippet = str "Tag: >>>" ++ qs ++ str "<<<") := by
  have hpinj : ∀ d1 ∈ db.documents, ∀ d2 ∈ db.documents, d1.path = d2.path → d1 = d2 :=
    fun d1 h1 d2 h2 he => List.inj_on_of_nodup_map hpaths h1 h2 he
  have hiinj : ∀ d1 ∈ db.documents, ∀ d2 ∈ db.documents, d1.id = d2.id → d1 = d2 :=
    fun d1 h1 d2 h2 he => List.inj_on_of_nodup_map hids h1 h2 he
  have hdidmem : d.id ∈ hits.map (fun x => x.rowid) :=
    hmatch ▸ List.mem_map_of_mem (fun x => x.rowid) hh
  have hquery : query db hits qs
      = get_docs_from_tags db (hits.map (fun x => x.rowid)) qs
        ++ (get_docs_from_fts db.documents hits).1 := rfl
  have hfts1 : (get_docs_from_fts db.documents hits).1
      = hits.filterMap (fun hi =>
          match (db.documents.filter
              (fun dd => (hits.map (fun x => x.rowid)).contains dd.id)).find?
              (fun dd => dd.id == hi.rowid) with
          | none => none
          | some doc => some (QueryResult.mk (some doc.id) hi.rank (pathName doc.path)
              doc.path (pathRel doc.path) doc.suffix doc.last_mod hi.snippet)) := rfl
  have htagpart : ∀ doc_ids : List Nat, d.id ∈ doc_ids →
      (get_docs_from_tags db doc_ids qs).filter (fun r => r.path_full = d.path) = [] := by
    intro doc_ids hmem
    simp only [get_docs_from_tags]
    split
    · rfl
    · apply List.filter_eq_nil_iff.mpr
      intro r hr
      obtain ⟨doc, hdoc, heq⟩ := List.mem_map.mp hr
      rw [← heq]
      simp only [decide_eq_true_eq]
      intro hpe
      have hdoc' := List.mem_filter.mp hdoc
      have hde : doc = d := hpinj doc hdoc'.1 d hd hpe
      have hcontains := hdoc'.2
      rw [hde] at hcontains
      have hmem2 : d.id ∈ (List.filter (fun i => !doc_ids.contains i)
          (List.map (fun tg => tg.doc_id)
            (List.filter (fun tg => decide (tg.tag = qs)) db.tags))) := by
        simpa using hcontains
      have hnotin := (List.mem_filter.mp hmem2).2
      simp [hmem] at hnotin
  have hfind : (db.documents.filter
        (fun dd => (hits.map (fun x => x.rowid)).contains dd.id)).find?
        (fun dd => dd.id == h.rowid) = some d := by
    apply find_unique
    · exact List.mem_filter.mpr ⟨hd, by simp [hdidmem]⟩
    · simp [hmatch]
    · intro y hy hpy
      have hy' := List.mem_filter.mp hy
      simp only [beq_iff_eq] at hpy
      exact hiinj y hy'.1 d hd (by rw [hpy, hmatch])
  have hftspart : ((get_docs_from_fts db.documents hits).1).filter
      (fun r => r.path_full = d.path)
      = [QueryResult.mk (some d.id) h.rank (pathName d.path) d.path (pathRel d.path)
          d.suffix d.last_mod h.snippet] := by
    rw [hfts1]
    apply filterMap_filter_single _ _ (fun x => x.rowid) hits h _ hrows hh
    · simp only [hfind]
    · simp
    · intro a ha hne b hfb
      cases hfd : (db.documents.filter
          (fun dd => (hits.map (fun x => x.rowid)).contains dd.id)).find?
          (fun dd => dd.id == a.rowid) with
      | none =>
        simp only [hfd] at hfb
        exact Option.noConfusion hfb
      | some doc' =>
        simp only [hfd, Option.some.injEq] at hfb
        have hdm := List.mem_filter.mp (List.mem_of_find?_eq_some hfd)
        have hdi : doc'.id = a.rowid := by
          have := List.find?_some hfd
          simpa using this
        rw [← hfb]
        simp only [decide_eq_false_iff_not]
        intro hpe
        have : doc' = d := hpinj doc' hdm.1 d hd hpe
        rw [this] at hdi
        exact hne (by rw [hmatch, ← hdi])
  constructor
  · rw [hquery, List.filter_append, htagpart (hits.map (fun x => x.rowid)) hdidmem,
      List.nil_append, hftspart]
  · intro r hr hnone
    rw [hquery] at hr
    rcases List.mem_append.mp hr with hrt | hrf
    · simp only [get_docs_from_tags] at hrt
      split at hrt
      · cases hrt
      · obtain ⟨doc, _, heq⟩ := List.mem_map.mp hrt
        rw [← heq]
        exact ⟨rfl, rfl⟩
    · rw [hfts1] at hrf
      obtain ⟨a, _, hfa⟩ := List.mem_filterMap.mp hrf
      cases hfd : (db.documents.filter
          (fun dd => (hits.map (fun x => x.rowid)).contains dd.id)).find?
          (fun dd => dd.id == a.rowid) with
      | none =>
        simp only [hfd] at hfa
        exact Option.noConfusion hfa
      | some doc' =>
        simp only [hfd, Option.some.injEq] at hfa
        rw [← hfa] at hnone
        cases hnone

/-- C3 witness: in `wDB` the document `wDoc` is matched both by the
full-text hit `wHit` and by the exact tag `draft`. -/
theorem c3_fusion_dedup_witness :
    (((wDB.documents.map (fun x => x.id)).Nodup
        ∧ (wDB.documents.map (fun x => x.path)).Nodup
        ∧ (([wHit].map (fun x => x.rowid)).Nodup)
        ∧ wDoc ∈ wDB.documents ∧ wHit ∈ [wHit] ∧ wHit.rowid = wDoc.id
        ∧ DocumentTagRow.mk 1 (str "draft") ∈ wDB.tags
        ∧ (DocumentTagRow.mk 1 (str "draft")).tag = str "draft"
        ∧ (DocumentTagRow.mk 1 (str "draft")).doc_id = wDoc.id))
    ∧ ((query wDB [wHit] (str "draft")).filter (fun r => r.path_full = wDoc.path)
        = [QueryResult.mk (some wDoc.id) wHit.rank (pathName wDoc.path) wDoc.path
            (pathRel wDoc.path) wDoc.suffix wDoc.last_mod wHit.snippet]
       ∧ ∀ r ∈ query wDB [wHit] (str "draft"), r.doc_id = none →
          (r.rank = str " 0.00" ∧ r.snippet = str "Tag: >>>" ++ str "draft" ++ str "<<<")) :=
  ⟨⟨by decide, by decide, by decide, by decide, by decide, by decide, by decide,
    by decide, by decide⟩,
   c3_fusion_dedup wDB [wHit] (str "draft") wDoc wHit (DocumentTagRow.mk 1 (str "draft"))
     (by decide) (by decide) (by decide) (by decide) (by decide) (by decide) (by decide)
     (by decide) (by decide)⟩
